import Mathlib

/-!
Verification development for the plant-care bot's screen-analysis-and-decision
core (`analyzer.py`, `executor.py`, `bot.py`, `performance_optimizer.py`).

Conventions of the shallow embedding:
* Python floats that hold times, confidences and liter amounts are modelled as
  rationals (`ℚ`); all arithmetic in the modelled code is comparison, addition
  and subtraction, so this is exact.
* Python dictionaries are modelled as association lists, latest binding first.
* Calls into external libraries (the `re` regex engine, `difflib`'s
  `SequenceMatcher.ratio`, Python's Unicode `str.lower`, float formatting,
  `numpy.array2string`, `hashlib.md5`) are modelled as function parameters,
  quantified over in the theorems; where a theorem needs a fact about an
  external function's output shape it is taken as an explicit hypothesis.
  The one exception is the soil-level regex of `_parse_soil_level`, whose
  three concrete patterns `<kw>.*?(\d+)\s*%` are translated into an
  executable scanner (`searchKwNumPercent`) so the spec's concrete scenario
  can be evaluated; `\d` and `\s` are modelled on their ASCII ranges.
* Python truthiness tests on floats/lists/options are modelled explicitly
  (`qTruthy`, comparison with `[]`).
-/

/-- Python truthiness of an optional float (`None` and `0.0` are falsy). -/
def qTruthy : Option ℚ → Bool
  | none => false
  | some x => decide (x ≠ 0)

/-- `config.ParasiteConfig`: one catalog entry for a pest. -/
structure ParasiteConfig where
  name : String
  name_variants : List String
  water_amount : ℚ × ℚ
  duration : ℕ
  key : String
  category : String
  icon_path : String
deriving DecidableEq, Repr

/-- `analyzer.ScreenAnalysis`, restricted to the fields the decision logic
reads (the omitted fields — `text_lines`, `current_screen`, screenshot and
timing metadata — feed only logging and the GUI). -/
structure ScreenAnalysis where
  text : String
  text_confidence : ℚ
  parasites_found : List ParasiteConfig
  water_level_low : Bool
  water_amount_needed : Option ℚ
  needs_fertilizer : Bool
  soil_level : Option ℕ
  ui_elements_detected : List String
  confidence : ℚ
deriving DecidableEq, Repr

/-- `SmartAnalyzer._calculate_confidence`: additive score over the analysis
fields, capped at 1.  `if analysis.parasites_found:` and
`if analysis.ui_elements_detected:` are Python truthiness on lists
(nonemptiness); `if analysis.water_amount_needed:` is float-option
truthiness. -/
def confidenceScore (a : ScreenAnalysis) : ℚ :=
  (if a.text_confidence > 7/10 then (3:ℚ)/10
    else if a.text_confidence > 1/2 then 2/10
    else if a.text_confidence > 3/10 then 1/10
    else 0)
  + (if a.parasites_found = [] then 0 else 4/10)
  + (if a.water_level_low then 2/10 else 0)
  + (if qTruthy a.water_amount_needed then 1/10 else 0)
  + (if a.ui_elements_detected = [] then 0 else 1/10)

/-- The source accumulates `score` with `+=` starting from `0.0`; the flat
sum `confidenceScore` is that accumulation, and the final result is
`min(score, 1.0)`. -/
def calculateConfidence (a : ScreenAnalysis) : ℚ :=
  min (confidenceScore a) 1

/-- The mutable part of `SmartAnalyzer` used by the cooldown gate:
`self.action_cooldowns` (a dict, modelled as an association list with the
latest binding first) and `self.default_cooldown = 3.0`. -/
structure AnalyzerState where
  action_cooldowns : List (String × ℚ)
  default_cooldown : ℚ
deriving DecidableEq, Repr

/-- `self.action_cooldowns.get(action_key, 0)`: dictionary lookup with
default `0`. -/
def lookupCd (m : List (String × ℚ)) (k : String) : ℚ :=
  match m.find? (fun p => p.1 == k) with
  | some p => p.2
  | none => 0

/-- Effective cooldown: `cooldown = cooldown or self.default_cooldown` —
Python `or` falls back to the default when the argument is `None` or the
falsy float `0.0`. -/
def effectiveCooldown (st : AnalyzerState) : Option ℚ → ℚ
  | none => st.default_cooldown
  | some c => if c = 0 then st.default_cooldown else c

/-- `SmartAnalyzer.can_perform_action`: check-and-set cooldown gate.  The
check at `now` succeeds iff `now - last ≥ cooldown`; on success the stored
time for the key becomes `now`. -/
def canPerformAction (st : AnalyzerState) (key : String) (cdOpt : Option ℚ)
    (now : ℚ) : Bool × AnalyzerState :=
  let cd := effectiveCooldown st cdOpt
  let last := lookupCd st.action_cooldowns key
  if now - last ≥ cd then
    (true, ⟨(key, now) :: st.action_cooldowns, st.default_cooldown⟩)
  else
    (false, st)

/-- Python `str.split()` with no argument: split on whitespace runs,
discarding empty words. -/
def pySplit (s : String) : List String :=
  (s.split fun c => c.isWhitespace).filter fun w => w ≠ ""

/-- Python's substring test `v in t` on lists of characters (the empty
string is a substring of everything). -/
def substrB : List Char → List Char → Bool
  | v, [] => v.isEmpty
  | v, c :: rest => v.isPrefixOf (c :: rest) || substrB v rest

/-- `SmartAnalyzer._fuzzy_match` at the default threshold 0.8, with
`difflib.SequenceMatcher(None, pw, tw).ratio()` as the external parameter
`ratio`: pattern words shorter than 3 characters are skipped, and the match
succeeds when any remaining pattern word reaches similarity at least 0.8
with any text word. -/
def fuzzyMatch (ratio : String → String → ℚ) (pattern text : String) : Bool :=
  (pySplit pattern).any fun pw =>
    decide (3 ≤ pw.length) &&
      ((pySplit text).any fun tw => decide (ratio pw tw ≥ 8/10))

/-- The variant loop inside `_detect_parasites` for one catalog entry:
each variant is lowercased (external Unicode `str.lower`, parameter
`lower`); an exact case-insensitive substring hit or a fuzzy hit stops the
loop.  Both hit branches have the same effect on the result list, so the
loop reduces to this boolean scan. -/
def scanVariants (lower : String → String) (ratio : String → String → ℚ)
    (text : String) : List String → Bool
  | [] => false
  | v :: rest =>
    let vl := lower v
    if substrB vl.toList text.toList then true
    else if fuzzyMatch ratio vl text then true
    else scanVariants lower ratio text rest

/-- The entry loop of `_detect_parasites`: `found.append(parasite)` guarded
by `if parasite not in found`. -/
def detectGo (lower : String → String) (ratio : String → String → ℚ)
    (text : String) :
    List (String × ParasiteConfig) → List ParasiteConfig → List ParasiteConfig
  | [], found => found
  | (_, p) :: rest, found =>
    if scanVariants lower ratio text p.name_variants then
      detectGo lower ratio text rest (if p ∈ found then found else found ++ [p])
    else
      detectGo lower ratio text rest found

/-- `SmartAnalyzer._detect_parasites`: iterate `self.config.parasites.items()`
(dict in insertion order, modelled as an association list) with `found = []`.
The text argument is the already-lowercased transcript, as passed by
`analyze_screen`. -/
def detectParasites (lower : String → String) (ratio : String → String → ℚ)
    (catalog : List (String × ParasiteConfig)) (text : String) :
    List ParasiteConfig :=
  detectGo lower ratio text catalog []

/-- The low-water distress phrases of `_analyze_water_status`
(`low_water_keywords`). -/
def lowWaterKeywords : List String :=
  ["мало води", "низьк", "недостатн", "потрібн",
   "треба полив", "додати вод", "долити",
   "water low", "need water"]

/-- The result dict of `_analyze_water_status` (the `keywords` entry is
logging-only and omitted). -/
structure WaterInfo where
  low : Bool
  amount : Option ℚ
deriving DecidableEq, Repr

/-- The amount-parsing loop of `_analyze_water_status`.  The four
`re.search` patterns together with the `float(...)` conversion are external
(`re`, Python float parsing) and are passed as `matchers`, in pattern
order, each returning the parsed first-match value or `none` on no match or
a conversion error.  The loop accepts the first pattern whose value lies in
`[0.5, 10]`; anything else falls through to the next pattern. -/
def parseWaterAmount (text : String) : List (String → Option ℚ) → Option ℚ
  | [] => none
  | m :: rest =>
    match m text with
    | some a => if 1/2 ≤ a ∧ a ≤ 10 then some a else parseWaterAmount text rest
    | none => parseWaterAmount text rest

/-- `SmartAnalyzer._analyze_water_status`: the low flag is an `in`-test of
each distress phrase against the text, the amount comes from the pattern
loop. -/
def analyzeWaterStatus (matchers : List (String → Option ℚ))
    (text : String) : WaterInfo :=
  ⟨lowWaterKeywords.any fun kw => substrB kw.toList text.toList,
   parseWaterAmount text matchers⟩

/-- Model of the lazy tail `.*?(\d+)\s*%` of the soil patterns: try each
start position left to right (`.` cannot cross a newline); at a digit,
`\d+` greedily takes the whole run and `\s*%` must follow (backtracking
the greedy run cannot help, because a shorter run is followed by a digit,
which `\s*` cannot consume).  `\d` and `\s` are modelled on ASCII. -/
def scanDigitsPercent : List Char → Option ℕ
  | [] => none
  | c :: rest =>
    if c = '\n' then none
    else if c.isDigit then
      let run := (c :: rest).takeWhile Char.isDigit
      let after := ((c :: rest).dropWhile Char.isDigit).dropWhile Char.isWhitespace
      match after with
      | '%' :: _ => some (run.foldl (fun n d => n * 10 + (d.toNat - Char.toNat '0')) 0)
      | _ => scanDigitsPercent rest
    else scanDigitsPercent rest

/-- `re.search` of `<kw>.*?(\d+)\s*%`: the keyword part is literal, so
the candidate match starts are exactly the occurrences of `kw`, tried
leftmost first; at each occurrence the lazy tail is scanned, and on failure
the search moves on to the next occurrence. -/
def searchKwNumPercent (kw : List Char) : List Char → Option ℕ
  | [] => none
  | c :: rest =>
    if kw.isPrefixOf (c :: rest) then
      match scanDigitsPercent ((c :: rest).drop kw.length) with
      | some n => some n
      | none => searchKwNumPercent kw rest
    else searchKwNumPercent kw rest

/-- The pattern loop of `_parse_soil_level`: a match is returned only when
its value lies in `[0, 100]` (a digit run is never negative, so only the
upper bound is a real constraint); otherwise the loop falls through to the
next pattern. -/
def soilGo (text : String) : List String → Option ℕ
  | [] => none
  | kw :: rest =>
    match searchKwNumPercent kw.toList text.toList with
    | some l => if l ≤ 100 then some l else soilGo text rest
    | none => soilGo text rest

/-- `SmartAnalyzer._parse_soil_level` over its three patterns
`грунт.*?(\d+)\s*%`, `soil.*?(\d+)\s*%`, `земл.*?(\d+)\s*%`, in
order. -/
def parseSoilLevel (text : String) : Option ℕ :=
  soilGo text ["грунт", "soil", "земл"]

/-- The soil step of `analyze_screen`:
`soil = self._parse_soil_level(text_lower); if soil: analysis.soil_level = soil`.
`if soil:` is Python truthiness on an optional int, so a parsed level of
`0` is dropped and the belief keeps `soil_level = None`. -/
def beliefSoilLevel (text : String) : Option ℕ :=
  match parseSoilLevel text with
  | some l => if l ≠ 0 then some l else none
  | none => none

/-- Low-level input-actuation events issued through `pyautogui` or the
window manager by the watering action. -/
inductive Event where
  | focusWindow : Event
  | pressKey : String → Event
  | backspace : Event
  | typeChar : Char → Event
  | clickPoint : ℤ × ℤ → Event
deriving DecidableEq, Repr

/-- `SmartExecutor._set_amount`: clear the field with 8 backspace presses,
then type the formatted amount character by character.  Python's
`f"{amount:.1f}".replace(".", ",")` float formatting is external and
passed as `fmt`. -/
def setAmountEvents (fmt : ℚ → String) (amount : ℚ) : List Event :=
  List.replicate 8 Event.backspace ++ (fmt amount).toList.map Event.typeChar

/-- `SmartExecutor._water_plant_smart`: focus the window when a window
manager is attached, press the watering key `"1"`, enter the amount, and
only then check the watering point.  With the point set, click it (via the
window manager or directly — either way one click at the point) and report
success; with the point unset, log a warning and report failure.  The
fertilizer flag only affects logging here and is carried at the `execute`
level.  Actuator exceptions are not modelled (deterministic actuation). -/
def waterPlantSmart (fmt : ℚ → String) (hasWM : Bool)
    (wp : Option (ℤ × ℤ)) (amount : ℚ) : List Event × Bool :=
  match wp with
  | some p =>
    ((if hasWM then [Event.focusWindow] else []) ++ [Event.pressKey "1"]
      ++ setAmountEvents fmt amount ++ [Event.clickPoint p], true)
  | none =>
    ((if hasWM then [Event.focusWindow] else []) ++ [Event.pressKey "1"]
      ++ setAmountEvents fmt amount, false)

/-- High-level actions `execute` performs in one call: a successful pest
treatment, or a performed watering with its fertilizer flag. -/
inductive ExecAction where
  | treatPest : String → ExecAction
  | water : ℚ → Bool → ExecAction
deriving DecidableEq, Repr

/-- Discriminator used to state the pest-first priority order. -/
def ExecAction.isTreat : ExecAction → Bool
  | treatPest _ => true
  | water _ _ => false

/-- The `SmartExecutor` fields read or written by `execute`
(`watering_point`, `last_parasite_treatment`, `watering_count`, and the
`stats` counters it touches). -/
structure ExecState where
  watering_point : Option (ℤ × ℤ)
  last_parasite_treatment : ℚ
  watering_count : ℕ
  statsTreated : ℕ
  statsWaterings : ℕ
  statsFailed : ℕ
deriving DecidableEq, Repr

/-- Result of the parasite loop inside `execute`. -/
structure TreatResult where
  acts : List ExecAction
  ast : AnalyzerState
  lpt : ℚ
  executed : Bool
  failed : ℕ
deriving DecidableEq, Repr

/-- The priority-1 parasite loop of `execute`: per-pest cooldown key
`"parasite_" + name` with cooldown 5 s; the external actuation/inventory
outcome of `_handle_parasite_smart` is the oracle `treatOk`; a successful
treatment records the action, sets `last_parasite_treatment = time.time()`
(the cycle's `now`) and marks the cycle executed, a failed one increments
the failed-actions counter. -/
def treatParasites (treatOk : ParasiteConfig → Bool) (now : ℚ) :
    List ParasiteConfig → AnalyzerState → ℚ → TreatResult
  | [], ast, lpt => ⟨[], ast, lpt, false, 0⟩
  | p :: rest, ast, lpt =>
    if (canPerformAction ast ("parasite_" ++ p.name) (some 5) now).1 then
      if treatOk p then
        let r := treatParasites treatOk now rest
          (canPerformAction ast ("parasite_" ++ p.name) (some 5) now).2 now
        ⟨ExecAction.treatPest p.name :: r.acts, r.ast, r.lpt, true, r.failed⟩
      else
        let r := treatParasites treatOk now rest
          (canPerformAction ast ("parasite_" ++ p.name) (some 5) now).2 lpt
        ⟨r.acts, r.ast, r.lpt, r.executed, r.failed + 1⟩
    else
      let r := treatParasites treatOk now rest
        (canPerformAction ast ("parasite_" ++ p.name) (some 5) now).2 lpt
      ⟨r.acts, r.ast, r.lpt, r.executed, r.failed⟩

/-- The `if analysis.parasites_found:` guard around the parasite loop
(Python truthiness on the list). -/
def execTreats (treatOk : ParasiteConfig → Bool) (a : ScreenAnalysis)
    (ast : AnalyzerState) (lpt now : ℚ) : TreatResult :=
  if a.parasites_found = [] then ⟨[], ast, lpt, false, 0⟩
  else treatParasites treatOk now a.parasites_found ast lpt

/-- `water_amount = analysis.water_amount_needed or self.analyzer.config.watering_amount`:
Python `or` falls back to the configured default when the parsed amount is
`None` or the falsy `0.0`. -/
def waterAmountChoice (cfgAmt : ℚ) : Option ℚ → ℚ
  | some w => if w = 0 then cfgAmt else w
  | none => cfgAmt

/-- `use_fertilizer = analysis.needs_fertilizer and not recently_treated`
with `recently_treated = (time.time() - self.last_parasite_treatment) < 10`. -/
def useFertilizer (needs : Bool) (now lpt : ℚ) : Bool :=
  needs && !(decide (now - lpt < 10))

/-- Result of one `execute` call: the return flag, the performed high-level
actions in order, the actuation events of the watering attempt, and the
threaded analyzer/executor states. -/
structure ExecResult where
  executed : Bool
  acts : List ExecAction
  events : List Event
  ast : AnalyzerState
  est : ExecState
deriving DecidableEq, Repr

/-- The priority-2 watering branch of `execute`, entered with the parasite
loop's result `t`: fires when the water-shortage flag is set or an amount
was parsed (Python truthiness) and the `"water"` cooldown (3 s) permits;
a performed watering appends its action, increments
`waterings_performed`/`total_actions` and `watering_count`; a failed one
increments `failed_actions`.  (The periodic water-can check that follows
in the source only drives the external inventory collaborator and its
state transitions are not observable here; `current_state` bookkeeping and
sleeps are likewise omitted as logging/pacing.) -/
def executeBody (fmt : ℚ → String) (hasWM : Bool) (cfgAmt : ℚ)
    (a : ScreenAnalysis) (t : TreatResult) (est : ExecState) (now : ℚ) :
    ExecResult :=
  if a.water_level_low || qTruthy a.water_amount_needed then
    if (canPerformAction t.ast "water" (some 3) now).1 then
      if (waterPlantSmart fmt hasWM est.watering_point
            (waterAmountChoice cfgAmt a.water_amount_needed)).2 then
        ⟨true,
         t.acts ++ [ExecAction.water
            (waterAmountChoice cfgAmt a.water_amount_needed)
            (useFertilizer a.needs_fertilizer now t.lpt)],
         (waterPlantSmart fmt hasWM est.watering_point
            (waterAmountChoice cfgAmt a.water_amount_needed)).1,
         (canPerformAction t.ast "water" (some 3) now).2,
         ⟨est.watering_point, t.lpt, est.watering_count + 1,
          est.statsTreated + t.acts.length, est.statsWaterings + 1,
          est.statsFailed + t.failed⟩⟩
      else
        ⟨t.executed, t.acts,
         (waterPlantSmart fmt hasWM est.watering_point
            (waterAmountChoice cfgAmt a.water_amount_needed)).1,
         (canPerformAction t.ast "water" (some 3) now).2,
         ⟨est.watering_point, t.lpt, est.watering_count,
          est.statsTreated + t.acts.length, est.statsWaterings,
          est.statsFailed + t.failed + 1⟩⟩
    else
      ⟨t.executed, t.acts, [],
       (canPerformAction t.ast "water" (some 3) now).2,
       ⟨est.watering_point, t.lpt, est.watering_count,
        est.statsTreated + t.acts.length, est.statsWaterings,
        est.statsFailed + t.failed⟩⟩
  else
    ⟨t.executed, t.acts, [], t.ast,
     ⟨est.watering_point, t.lpt, est.watering_count,
      est.statsTreated + t.acts.length, est.statsWaterings,
      est.statsFailed + t.failed⟩⟩

/-- `SmartExecutor.execute`: skip everything below confidence 0.3, then
parasites first, then watering.  `time.time()` within the call is the
single cycle timestamp `now`. -/
def execute (fmt : ℚ → String) (treatOk : ParasiteConfig → Bool)
    (hasWM : Bool) (cfgAmt : ℚ) (a : ScreenAnalysis) (ast : AnalyzerState)
    (est : ExecState) (now : ℚ) : ExecResult :=
  if a.confidence < 3/10 then ⟨false, [], [], ast, est⟩
  else executeBody fmt hasWM cfgAmt a
    (execTreats treatOk a ast est.last_parasite_treatment now) est now

/-- The action gate of `PlantCareBot._monitor_loop`: the executor runs only
when `analysis.confidence > 0.3` (strict); otherwise the cycle only updates
bookkeeping counters and no action is taken. -/
def monitorCycleExec (fmt : ℚ → String) (treatOk : ParasiteConfig → Bool)
    (hasWM : Bool) (cfgAmt : ℚ) (a : ScreenAnalysis) (ast : AnalyzerState)
    (est : ExecState) (now : ℚ) : ExecResult :=
  if a.confidence > 3/10 then execute fmt treatOk hasWM cfgAmt a ast est now
  else ⟨false, [], [], ast, est⟩

/-- The loop-visible state of `PlantCareBot._monitor_loop`: the `_running`
flag, the `stats['scans']` and `stats['errors']` counters, the local
`consecutive_errors` counter, and the number of
`SmartExecutor.emergency_stop` invocations. -/
structure LoopState where
  running : Bool
  scans : ℕ
  errors : ℕ
  consecutiveErrors : ℕ
  emergencyStops : ℕ
deriving DecidableEq, Repr

/-- One iteration body of `_monitor_loop`, abstracted over whether this
cycle's body raised an exception (`raised`).  `stats['scans']` is
incremented before any fallible call, so it advances either way; a normal
cycle resets the consecutive-error counter; a raising cycle is caught,
counted and logged, and reaching `max_errors = 5` consecutive failures
calls `emergency_stop`, clears `_running` and breaks out of the loop. -/
def loopStep (raised : Bool) (s : LoopState) : LoopState :=
  if raised then
    if 5 ≤ s.consecutiveErrors + 1 then
      ⟨false, s.scans + 1, s.errors + 1, s.consecutiveErrors + 1,
        s.emergencyStops + 1⟩
    else
      ⟨s.running, s.scans + 1, s.errors + 1, s.consecutiveErrors + 1,
        s.emergencyStops⟩
  else
    ⟨s.running, s.scans + 1, s.errors, 0, s.emergencyStops⟩

/-- The `while self._running and not self._shutdown_requested:` loop over a
finite schedule of cycle outcomes (`true` = the cycle raised). -/
def monitorLoop : List Bool → LoopState → LoopState
  | [], s => s
  | r :: rest, s => if s.running then monitorLoop rest (loopStep r s) else s

/-- The loop's state at `start()`: running, all counters zero. -/
def initLoopState : LoopState := ⟨true, 0, 0, 0, 0⟩

/-- Proof-side helper: starting from `c` accumulated consecutive errors,
does the schedule drive the counter to 5? -/
def reachesFiveFrom (c : ℕ) : List Bool → Bool
  | [] => false
  | r :: rest =>
    if r then
      if 5 ≤ c + 1 then true else reachesFiveFrom (c + 1) rest
    else reachesFiveFrom 0 rest

/-- Dictionary get on a string-keyed association list (latest binding
first). -/
def dictFind {α : Type} (m : List (String × α)) (k : String) : Option α :=
  (m.find? fun p => p.1 == k).map Prod.snd

/-- Dictionary set. -/
def dictSet {α : Type} (m : List (String × α)) (k : String) (v : α) :
    List (String × α) :=
  (k, v) :: m

/-- Dictionary `del`. -/
def dictDel {α : Type} (m : List (String × α)) (k : String) :
    List (String × α) :=
  m.filter fun p => p.1 != k

/-- The OCR-cache state of `PerformanceOptimizer`: the
`OCR_CACHE_ENABLED` flag, the `OCR_CACHE_TTL`, the `ocr_cache` and
`cache_timestamps` dicts, and the hit/miss counters. -/
structure OcrCache where
  enabled : Bool
  ttl : ℚ
  entries : List (String × String)
  stamps : List (String × ℚ)
  hits : ℕ
  misses : ℕ
deriving DecidableEq, Repr

/-- `PerformanceOptimizer.cache_ocr_result(image_hash, result)`: store the
result and its timestamp under the caller-supplied key (no-op when the
cache is disabled). -/
def cacheOcrResult (c : OcrCache) (key result : String) (now : ℚ) :
    OcrCache :=
  if c.enabled then
    ⟨c.enabled, c.ttl, dictSet c.entries key result,
      dictSet c.stamps key now, c.hits, c.misses⟩
  else c

/-- The read key of `PerformanceOptimizer.get_cached_ocr`:
`hashlib.md5(image.tobytes()).hexdigest()[:16]`, with the external MD5
hex digest as parameter `md5hex` over the image bytes. -/
def md5Key (md5hex : List ℕ → String) (bytes : List ℕ) : String :=
  (md5hex bytes).take 16

/-- `PerformanceOptimizer.get_cached_ocr`: disabled cache → `None`; key
absent → miss; entry older than the TTL → delete both dict entries and
miss; otherwise hit.  (The timestamp lookup in the source is a plain
`dict[...]` index; the `none` fallback models the `KeyError` state, which
is unreachable because both dicts are always written together.) -/
def getCachedOcr (md5hex : List ℕ → String) (c : OcrCache)
    (bytes : List ℕ) (now : ℚ) : Option String × OcrCache :=
  if c.enabled then
    match dictFind c.entries (md5Key md5hex bytes) with
    | none => (none, ⟨c.enabled, c.ttl, c.entries, c.stamps, c.hits, c.misses + 1⟩)
    | some v =>
      match dictFind c.stamps (md5Key md5hex bytes) with
      | some ts =>
        if now - ts > c.ttl then
          (none, ⟨c.enabled, c.ttl, dictDel c.entries (md5Key md5hex bytes),
            dictDel c.stamps (md5Key md5hex bytes), c.hits, c.misses + 1⟩)
        else (some v, ⟨c.enabled, c.ttl, c.entries, c.stamps, c.hits + 1, c.misses⟩)
      | none => (none, c)
  else (none, c)

/-- The no-hit continuation of `_extract_text_enhanced`: run the
multi-configuration OCR attempts (external engine; their best outcome on
this image is `ocrBest`), and when text was found, cache it under the
`np.array2string` key of the image's flattened 10×10 corner. -/
def ocrMissBranch (arr2string : List ℕ → String) (corner : List ℕ)
    (now : ℚ) (ocrBest : String × ℚ × List String) (c : OcrCache) :
    (String × ℚ × List String) × OcrCache :=
  if ocrBest.1 ≠ "" then
    (ocrBest, cacheOcrResult c (arr2string corner) ocrBest.1 now)
  else (ocrBest, c)

/-- `SmartAnalyzer._extract_text_enhanced` with the performance optimizer
attached (the bot always constructs one): a cache hit — `if cached:` is
string truthiness, so the hit must be nonempty — returns the cached text
with the fixed confidence `0.85` and newline-split lines; anything else
falls through to the OCR attempts. -/
def extractTextEnhanced (md5hex arr2string : List ℕ → String)
    (c : OcrCache) (bytes corner : List ℕ) (now : ℚ)
    (ocrBest : String × ℚ × List String) :
    (String × ℚ × List String) × OcrCache :=
  match getCachedOcr md5hex c bytes now with
  | (some cached, c') =>
    if cached ≠ "" then ((cached, 17/20, cached.splitOn "
"), c')
    else ocrMissBranch arr2string corner now ocrBest c'
  | (none, c') => ocrMissBranch arr2string corner now ocrBest c'

/-- A cache whose every entry was written through the analyzer's
`cache_ocr_result` call sites, i.e. under an `np.array2string` key. -/
def analyzerKeyed (arr2string : List ℕ → String) (c : OcrCache) : Prop :=
  ∀ k ∈ c.entries.map Prod.fst, ∃ xs, k = arr2string xs

/-- Hexadecimal digit test (an MD5 hex digest consists of `0-9a-f`; the
uppercase range is included so the hypothesis stays a superset). -/
def isHexChar (c : Char) : Bool :=
  c.isDigit || ('a' ≤ c && c ≤ 'f') || ('A' ≤ c && c ≤ 'F')

-- ======================== THEOREMS ========================

/-- C2.  Cooldown gate (check-and-set): a permission check for key `K` at
time `now` succeeds iff `now` minus the stored last-grant time for `K` is at
least the effective cooldown for `K`; a successful check updates the stored
time for `K` to `now`, a failed check leaves the state untouched; and in the
three-check scenario for one key — a first check that the window permits, a
second check before the window elapses, a third after it elapses — the first
and third succeed and the second fails. -/
theorem can_perform_action_gate (st : AnalyzerState) (k : String)
    (cdOpt : Option ℚ) (now : ℚ) :
    ((canPerformAction st k cdOpt now).1 = true ↔
      now - lookupCd st.action_cooldowns k ≥ effectiveCooldown st cdOpt) ∧
    ((canPerformAction st k cdOpt now).1 = true →
      lookupCd (canPerformAction st k cdOpt now).2.action_cooldowns k = now) ∧
    ((canPerformAction st k cdOpt now).1 = false →
      (canPerformAction st k cdOpt now).2 = st) ∧
    (∀ t₁ t₂ t₃ : ℚ,
      t₁ - lookupCd st.action_cooldowns k ≥ effectiveCooldown st cdOpt →
      t₂ - t₁ < effectiveCooldown st cdOpt →
      t₃ - t₁ ≥ effectiveCooldown st cdOpt →
      (canPerformAction st k cdOpt t₁).1 = true ∧
      (canPerformAction (canPerformAction st k cdOpt t₁).2 k cdOpt t₂).1 = false ∧
      (canPerformAction
        (canPerformAction (canPerformAction st k cdOpt t₁).2 k cdOpt t₂).2
        k cdOpt t₃).1 = true) := by
  refine ⟨?_, ?_, ?_, ?_⟩
  · unfold canPerformAction
    by_cases h : now - lookupCd st.action_cooldowns k ≥ effectiveCooldown st cdOpt
    · simp [h]
    · simp [h]
  · intro h
    unfold canPerformAction at *
    by_cases hc : now - lookupCd st.action_cooldowns k ≥ effectiveCooldown st cdOpt
    · simp only [hc, if_pos] at h ⊢
      simp [lookupCd]
    · simp [hc] at h
  · intro h
    unfold canPerformAction at *
    by_cases hc : now - lookupCd st.action_cooldowns k ≥ effectiveCooldown st cdOpt
    · simp [hc] at h
    · simp [hc]
  · intro t₁ t₂ t₃ h₁ h₂ h₃
    have e₁ : canPerformAction st k cdOpt t₁ =
        (true, ⟨(k, t₁) :: st.action_cooldowns, st.default_cooldown⟩) := by
      unfold canPerformAction
      simp [h₁]
    have hcd : effectiveCooldown ⟨(k, t₁) :: st.action_cooldowns, st.default_cooldown⟩ cdOpt
        = effectiveCooldown st cdOpt := by
      cases cdOpt <;> simp [effectiveCooldown]
    have hlk : lookupCd ((k, t₁) :: st.action_cooldowns) k = t₁ := by
      simp [lookupCd]
    have e₂ : canPerformAction ⟨(k, t₁) :: st.action_cooldowns, st.default_cooldown⟩ k cdOpt t₂ =
        (false, ⟨(k, t₁) :: st.action_cooldowns, st.default_cooldown⟩) := by
      unfold canPerformAction
      rw [hcd, hlk]
      simp only [ge_iff_le]
      rw [if_neg (by intro hle; linarith)]
    refine ⟨by rw [e₁], by rw [e₁, e₂], ?_⟩
    rw [e₁, e₂]
    unfold canPerformAction
    rw [hcd, hlk]
    simp only [ge_iff_le]
    rw [if_pos (by linarith)]

/-- Witness for C2 at a concrete state: empty cooldown table, key `"water"`,
cooldown 3, checks at times 3, 5 and 7. -/
theorem can_perform_action_gate_witness :
    (canPerformAction ⟨[], 3⟩ "water" (some 3) 3).1 = true ∧
    (canPerformAction (canPerformAction ⟨[], 3⟩ "water" (some 3) 3).2
      "water" (some 3) 5).1 = false ∧
    (canPerformAction
      (canPerformAction (canPerformAction ⟨[], 3⟩ "water" (some 3) 3).2
        "water" (some 3) 5).2 "water" (some 3) 7).1 = true := by
  have h := (can_perform_action_gate ⟨[], 3⟩ "water" (some 3) 0).2.2.2 3 5 7
    (by norm_num [lookupCd, effectiveCooldown])
    (by norm_num [lookupCd, effectiveCooldown])
    (by norm_num [lookupCd, effectiveCooldown])
  exact h

/-- C6.  Confidence score bounds and monotonicity: the score is always in
`[0,1]`, and it is non-decreasing in each contributing signal — raising the
OCR confidence, or turning on pest-detected, water-shortage,
parsed-water-amount-present, or UI-element-detected, with the other fields
held fixed, never decreases the score. -/
theorem confidence_bounds_monotone :
    (∀ a : ScreenAnalysis, 0 ≤ calculateConfidence a ∧ calculateConfidence a ≤ 1) ∧
    (∀ t tc tc' ps wl wa nf sl ui cf, tc ≤ tc' →
      calculateConfidence ⟨t, tc, ps, wl, wa, nf, sl, ui, cf⟩ ≤
      calculateConfidence ⟨t, tc', ps, wl, wa, nf, sl, ui, cf⟩) ∧
    (∀ t tc ps wl wa nf sl ui cf,
      calculateConfidence ⟨t, tc, [], wl, wa, nf, sl, ui, cf⟩ ≤
      calculateConfidence ⟨t, tc, ps, wl, wa, nf, sl, ui, cf⟩) ∧
    (∀ t tc ps wa nf sl ui cf,
      calculateConfidence ⟨t, tc, ps, false, wa, nf, sl, ui, cf⟩ ≤
      calculateConfidence ⟨t, tc, ps, true, wa, nf, sl, ui, cf⟩) ∧
    (∀ t tc ps wl wa nf sl ui cf,
      calculateConfidence ⟨t, tc, ps, wl, none, nf, sl, ui, cf⟩ ≤
      calculateConfidence ⟨t, tc, ps, wl, wa, nf, sl, ui, cf⟩) ∧
    (∀ t tc ps wl wa nf sl cf ui,
      calculateConfidence ⟨t, tc, ps, wl, wa, nf, sl, [], cf⟩ ≤
      calculateConfidence ⟨t, tc, ps, wl, wa, nf, sl, ui, cf⟩) := by
  refine ⟨?_, ?_, ?_, ?_, ?_, ?_⟩
  · intro a
    unfold calculateConfidence confidenceScore
    constructor
    · refine le_min ?_ zero_le_one
      split_ifs <;> norm_num
    · exact min_le_right _ _
  · intro t tc tc' ps wl wa nf sl ui cf h
    unfold calculateConfidence confidenceScore
    apply min_le_min _ le_rfl
    dsimp only
    gcongr ?_ + _ + _ + _ + _
    split_ifs <;> linarith
  · intro t tc ps wl wa nf sl ui cf
    unfold calculateConfidence confidenceScore
    apply min_le_min _ le_rfl
    dsimp only
    by_cases hp : ps = []
    · rw [hp]
    · rw [if_pos rfl, if_neg hp]
      linarith
  · intro t tc ps wa nf sl ui cf
    unfold calculateConfidence confidenceScore
    apply min_le_min _ le_rfl
    dsimp only
    rw [if_neg (show ¬(false = true) by simp), if_pos (show true = true from rfl)]
    linarith
  · intro t tc ps wl wa nf sl ui cf
    unfold calculateConfidence confidenceScore
    apply min_le_min _ le_rfl
    dsimp only
    rw [if_neg (show ¬(qTruthy none = true) by simp [qTruthy])]
    by_cases hq : qTruthy wa = true
    · rw [if_pos hq]
      linarith
    · rw [if_neg hq]
  · intro t tc ps wl wa nf sl cf ui
    unfold calculateConfidence confidenceScore
    apply min_le_min _ le_rfl
    dsimp only
    by_cases hu : ui = []
    · rw [hu]
    · rw [if_pos rfl, if_neg hu]
      linarith

/-- Witness for C6: the OCR-monotonicity clause applied at confidences 0.4
and 0.8 with a water-shortage belief. -/
theorem confidence_bounds_monotone_witness :
    calculateConfidence ⟨"", 4/10, [], true, none, false, none, [], 0⟩ ≤
    calculateConfidence ⟨"", 8/10, [], true, none, false, none, [], 0⟩ := by
  exact confidence_bounds_monotone.2.1 "" (4/10) (8/10) [] true none false none [] 0
    (by norm_num)

/-- The variant scan succeeds exactly when some variant matches, exactly or
fuzzily. -/
lemma scanVariants_eq_true_iff (lower : String → String)
    (ratio : String → String → ℚ) (text : String) (vs : List String) :
    scanVariants lower ratio text vs = true ↔
      ∃ v ∈ vs, substrB (lower v).toList text.toList = true ∨
        fuzzyMatch ratio (lower v) text = true := by
  induction vs with
  | nil => simp [scanVariants]
  | cons v rest ih =>
    unfold scanVariants
    by_cases he : substrB (lower v).toList text.toList = true
    · rw [if_pos he]
      constructor
      · intro _
        exact ⟨v, List.mem_cons_self _ _, Or.inl he⟩
      · intro _
        rfl
    · rw [if_neg he]
      by_cases hf : fuzzyMatch ratio (lower v) text = true
      · rw [if_pos hf]
        constructor
        · intro _
          exact ⟨v, List.mem_cons_self _ _, Or.inr hf⟩
        · intro _
          rfl
      · rw [if_neg hf, ih]
        constructor
        · rintro ⟨w, hw, hcase⟩
          exact ⟨w, List.mem_cons_of_mem _ hw, hcase⟩
        · rintro ⟨w, hw, hcase⟩
          rcases List.mem_cons.mp hw with h | h
          · subst h
            rcases hcase with h | h
            · exact absurd h he
            · exact absurd h hf
          · exact ⟨w, h, hcase⟩

/-- Membership in the accumulator is preserved by the entry loop. -/
lemma detectGo_mem_mono (lower : String → String) (ratio : String → String → ℚ)
    (text : String) (entries : List (String × ParasiteConfig))
    (found : List ParasiteConfig) (p : ParasiteConfig) (h : p ∈ found) :
    p ∈ detectGo lower ratio text entries found := by
  induction entries generalizing found with
  | nil => exact h
  | cons e rest ih =>
    obtain ⟨k, q⟩ := e
    unfold detectGo
    by_cases hs : scanVariants lower ratio text q.name_variants = true
    · rw [if_pos hs]
      apply ih
      by_cases hq : q ∈ found
      · rw [if_pos hq]
        exact h
      · rw [if_neg hq]
        exact List.mem_append_left _ h
    · rw [if_neg hs]
      exact ih _ h

/-- If the catalog contains an entry for `p` whose variants match, `p` ends
up in the result. -/
lemma detectGo_mem_of_match (lower : String → String)
    (ratio : String → String → ℚ) (text : String)
    (entries : List (String × ParasiteConfig)) (found : List ParasiteConfig)
    (k : String) (p : ParasiteConfig) (hmem : (k, p) ∈ entries)
    (hscan : scanVariants lower ratio text p.name_variants = true) :
    p ∈ detectGo lower ratio text entries found := by
  induction entries generalizing found with
  | nil => cases hmem
  | cons e rest ih =>
    obtain ⟨k', q⟩ := e
    rcases List.mem_cons.mp hmem with h | h
    · have hq : q = p := (congrArg Prod.snd h).symm
      subst hq
      unfold detectGo
      rw [if_pos hscan]
      apply detectGo_mem_mono
      by_cases hin : q ∈ found
      · rw [if_pos hin]
        exact hin
      · rw [if_neg hin]
        exact List.mem_append_right _ (List.mem_singleton_self _)
    · unfold detectGo
      by_cases hs : scanVariants lower ratio text q.name_variants = true
      · rw [if_pos hs]
        exact ih _ h
      · rw [if_neg hs]
        exact ih _ h

/-- The guarded append keeps the count of every parasite at most 1. -/
lemma detectGo_count_le_one (lower : String → String)
    (ratio : String → String → ℚ) (text : String)
    (entries : List (String × ParasiteConfig)) (found : List ParasiteConfig)
    (p : ParasiteConfig) (h : found.count p ≤ 1) :
    (detectGo lower ratio text entries found).count p ≤ 1 := by
  induction entries generalizing found with
  | nil => exact h
  | cons e rest ih =>
    obtain ⟨k, q⟩ := e
    unfold detectGo
    by_cases hs : scanVariants lower ratio text q.name_variants = true
    · rw [if_pos hs]
      apply ih
      by_cases hq : q ∈ found
      · rw [if_pos hq]
        exact h
      · rw [if_neg hq]
        rw [List.count_append]
        by_cases hpq : q = p
        · subst hpq
          have h0 : found.count q = 0 := List.count_eq_zero.mpr hq
          have h1 : List.count q [q] = 1 := by
            simp
          omega
        · have h0 : List.count p [q] = 0 :=
            List.count_eq_zero.mpr (by
              intro hc
              exact hpq (List.mem_singleton.mp hc).symm)
          omega
    · rw [if_neg hs]
      exact ih _ h

/-- C3.  Pest detection exactly-once: for every transcript text and every
catalog entry `P`, if any of `P`'s name variants matches the text — as an
exact case-insensitive substring, or fuzzily at token similarity at least
0.8 on variant tokens of length at least 3 — then the extracted pest list
contains `P` exactly once; the first matching variant stops the search for
`P`, and duplicate occurrences of the same variant do not add `P` again.
The external Unicode lowercasing and the token-similarity ratio are
universally quantified parameters. -/
theorem detect_parasites_exactly_once (lower : String → String)
    (ratio : String → String → ℚ) (catalog : List (String × ParasiteConfig))
    (text : String) (k : String) (p : ParasiteConfig)
    (hmem : (k, p) ∈ catalog)
    (hmatch : ∃ v ∈ p.name_variants,
      substrB (lower v).toList text.toList = true ∨
        fuzzyMatch ratio (lower v) text = true) :
    (detectParasites lower ratio catalog text).count p = 1 := by
  have hscan : scanVariants lower ratio text p.name_variants = true :=
    (scanVariants_eq_true_iff lower ratio text p.name_variants).mpr hmatch
  have hle : (detectParasites lower ratio catalog text).count p ≤ 1 :=
    detectGo_count_le_one lower ratio text catalog [] p (by simp)
  have hpos : 0 < (detectParasites lower ratio catalog text).count p :=
    List.count_pos_iff.mpr
      (detectGo_mem_of_match lower ratio text catalog [] k p hmem hscan)
  omega

/-- Witness for C3: the catalog entry for aphids matched by its variant
`"тля"`, occurring twice in the text, is extracted exactly once. -/
theorem detect_parasites_exactly_once_witness :
    (detectParasites id (fun _ _ => 0)
      [("тля", ⟨"ТЛЯ", ["тля", "тли"], (2, 12/5), 120, "2", "біологічні",
        "data/chemicals.png"⟩)]
      "виявлено тля та тля").count
      ⟨"ТЛЯ", ["тля", "тли"], (2, 12/5), 120, "2", "біологічні",
        "data/chemicals.png"⟩ = 1 := by
  exact detect_parasites_exactly_once id (fun _ _ => 0) _ _ "тля" _
    (List.mem_singleton_self _)
    ⟨"тля", by decide, Or.inl (by decide)⟩

/-- Any amount accepted by the pattern loop lies in `[0.5, 10]`. -/
lemma parseWaterAmount_range (text : String)
    (ms : List (String → Option ℚ)) (a : ℚ)
    (h : parseWaterAmount text ms = some a) : 1/2 ≤ a ∧ a ≤ 10 := by
  induction ms with
  | nil => simp [parseWaterAmount] at h
  | cons m rest ih =>
    unfold parseWaterAmount at h
    cases hm : m text with
    | none =>
      rw [hm] at h
      exact ih h
    | some b =>
      rw [hm] at h
      dsimp only at h
      by_cases hb : 1/2 ≤ b ∧ b ≤ 10
      · rw [if_pos hb] at h
        cases h
        exact hb
      · rw [if_neg hb] at h
        exact ih h

/-- C5.  Water-amount range: every parsed liter amount returned by the
water-status extractor lies within `[0.5, 10]`, and a pattern whose value
is missing or out of range is skipped — extraction falls through to the
next pattern in order (so possibly to no amount at all). -/
theorem water_amount_range (matchers : List (String → Option ℚ))
    (text : String) :
    (∀ a : ℚ, (analyzeWaterStatus matchers text).amount = some a →
      1/2 ≤ a ∧ a ≤ 10) ∧
    (∀ (m : String → Option ℚ) (rest : List (String → Option ℚ)),
      (∀ a : ℚ, m text = some a → ¬(1/2 ≤ a ∧ a ≤ 10)) →
      parseWaterAmount text (m :: rest) = parseWaterAmount text rest) := by
  constructor
  · intro a h
    exact parseWaterAmount_range text matchers a h
  · intro m rest hm
    cases hv : m text with
    | none => simp only [parseWaterAmount, hv]
    | some b =>
      simp only [parseWaterAmount, hv]
      rw [if_neg (hm b hv)]
  
/-- Witness for C5: a first pattern reading 50 liters is discarded as out
of range and the second pattern's 2.5 liters is accepted. -/
theorem water_amount_range_witness :
    ((1:ℚ)/2 ≤ 5/2 ∧ (5:ℚ)/2 ≤ 10) ∧
    parseWaterAmount "t" [fun _ => some 50, fun _ => some (5/2)] =
      parseWaterAmount "t" [fun _ => some (5/2)] := by
  constructor
  · exact (water_amount_range [fun _ => some 50, fun _ => some (5/2)] "t").1
      (5/2) (by norm_num [analyzeWaterStatus, parseWaterAmount])
  · exact (water_amount_range [fun _ => some (5/2)] "t").2
      (fun _ => some 50) [fun _ => some (5/2)]
      (by
        intro a ha
        cases ha
        norm_num)

/-- The soil pattern loop only returns values at most 100. -/
lemma soilGo_le_100 (text : String) (kws : List String) (l : ℕ)
    (h : soilGo text kws = some l) : l ≤ 100 := by
  induction kws with
  | nil => simp [soilGo] at h
  | cons kw rest ih =>
    unfold soilGo at h
    cases hs : searchKwNumPercent kw.toList text.toList with
    | none =>
      rw [hs] at h
      exact ih h
    | some v =>
      rw [hs] at h
      dsimp only at h
      by_cases hv : v ≤ 100
      · rw [if_pos hv] at h
        cases h
        exact hv
      · rw [if_neg hv] at h
        exact ih h

/-- C9 counterexample.  The claim says every matched soil value `N` with
`0 ≤ N ≤ 100` is recorded in the belief; but for the text `"грунт: 0%"`
the parser matches and accepts the value `0`, while the `if soil:`
truthiness test in `analyze_screen` drops it, leaving the belief's
soil level absent. -/
theorem soil_level_zero_dropped :
    parseSoilLevel "грунт: 0%" = some 0 ∧
    beliefSoilLevel "грунт: 0%" = none := by
  constructor <;> rfl

/-- C9 as amended.  The belief records a soil level exactly for matched
values in `[1, 100]`: every recorded level lies in that interval (values
above 100 are rejected by the parser, a matched 0 is dropped by the
truthiness test), and the spec's concrete scenario holds — the text
`"грунт: 77%"` yields soil level 77. -/
theorem soil_level_range (text : String) (n : ℕ)
    (h : beliefSoilLevel text = some n) :
    (1 ≤ n ∧ n ≤ 100) ∧ beliefSoilLevel "грунт: 77%" = some 77 := by
  refine ⟨?_, by rfl⟩
  unfold beliefSoilLevel at h
  cases hp : parseSoilLevel text with
  | none =>
    rw [hp] at h
    cases h
  | some l =>
    rw [hp] at h
    dsimp only at h
    by_cases hl : l ≠ 0
    · rw [if_pos hl] at h
      have hle := soilGo_le_100 text ["грунт", "soil", "земл"] l hp
      cases h
      omega
    · rw [if_neg hl] at h
      cases h

/-- Witness for C9 at the spec's scenario text. -/
theorem soil_level_range_witness :
    ((1 ≤ 77 ∧ 77 ≤ 100) ∧ beliefSoilLevel "грунт: 77%" = some 77) := by
  exact soil_level_range "грунт: 77%" 77 (by rfl)

/-- Every action recorded by the parasite loop is a treatment. -/
lemma treatParasites_all_treats (treatOk : ParasiteConfig → Bool) (now : ℚ)
    (ps : List ParasiteConfig) :
    ∀ (ast : AnalyzerState) (lpt : ℚ),
      ∀ x ∈ (treatParasites treatOk now ps ast lpt).acts, x.isTreat = true := by
  induction ps with
  | nil =>
    intro ast lpt x hx
    simp [treatParasites] at hx
  | cons p rest ih =>
    intro ast lpt x hx
    unfold treatParasites at hx
    by_cases h1 : (canPerformAction ast ("parasite_" ++ p.name) (some 5) now).1 = true
    · rw [if_pos h1] at hx
      by_cases h2 : treatOk p = true
      · rw [if_pos h2] at hx
        rcases List.mem_cons.mp hx with h | h
        · subst h
          rfl
        · exact ih _ _ x h
      · rw [if_neg h2] at hx
        exact ih _ _ x hx
    · rw [if_neg h1] at hx
      exact ih _ _ x hx

/-- The loop's final `last_parasite_treatment` is `now` when something was
treated this cycle, and the incoming value otherwise. -/
lemma treatParasites_lpt (treatOk : ParasiteConfig → Bool) (now : ℚ)
    (ps : List ParasiteConfig) :
    ∀ (ast : AnalyzerState) (lpt : ℚ),
      (treatParasites treatOk now ps ast lpt).lpt =
        if (treatParasites treatOk now ps ast lpt).executed = true then now
        else lpt := by
  induction ps with
  | nil =>
    intro ast lpt
    simp [treatParasites]
  | cons p rest ih =>
    intro ast lpt
    unfold treatParasites
    by_cases h1 : (canPerformAction ast ("parasite_" ++ p.name) (some 5) now).1 = true
    · rw [if_pos h1]
      by_cases h2 : treatOk p = true
      · rw [if_pos h2]
        dsimp only
        rw [if_pos rfl, ih]
        split_ifs <;> rfl
      · rw [if_neg h2]
        dsimp only
        exact ih _ _
    · rw [if_neg h1]
      dsimp only
      exact ih _ _

/-- A cycle in which no treatment succeeded records no treatment action. -/
lemma treatParasites_acts_of_not_executed (treatOk : ParasiteConfig → Bool)
    (now : ℚ) (ps : List ParasiteConfig) :
    ∀ (ast : AnalyzerState) (lpt : ℚ),
      (treatParasites treatOk now ps ast lpt).executed = false →
      (treatParasites treatOk now ps ast lpt).acts = [] := by
  induction ps with
  | nil =>
    intro ast lpt _
    rfl
  | cons p rest ih =>
    intro ast lpt h
    unfold treatParasites at h ⊢
    by_cases h1 : (canPerformAction ast ("parasite_" ++ p.name) (some 5) now).1 = true
    · rw [if_pos h1] at h ⊢
      by_cases h2 : treatOk p = true
      · rw [if_pos h2] at h
        cases h
      · rw [if_neg h2] at h ⊢
        exact ih _ _ h
    · rw [if_neg h1] at h ⊢
      exact ih _ _ h

/-- `execTreats` versions of the three loop lemmas. -/
lemma execTreats_all_treats (treatOk : ParasiteConfig → Bool)
    (a : ScreenAnalysis) (ast : AnalyzerState) (lpt now : ℚ) :
    ∀ x ∈ (execTreats treatOk a ast lpt now).acts, x.isTreat = true := by
  unfold execTreats
  by_cases hp : a.parasites_found = []
  · rw [if_pos hp]
    intro x hx
    simp at hx
  · rw [if_neg hp]
    exact treatParasites_all_treats treatOk now a.parasites_found ast lpt

lemma execTreats_lpt (treatOk : ParasiteConfig → Bool) (a : ScreenAnalysis)
    (ast : AnalyzerState) (lpt now : ℚ) :
    (execTreats treatOk a ast lpt now).lpt =
      if (execTreats treatOk a ast lpt now).executed = true then now
      else lpt := by
  unfold execTreats
  by_cases hp : a.parasites_found = []
  · rw [if_pos hp]
    rfl
  · rw [if_neg hp]
    exact treatParasites_lpt treatOk now a.parasites_found ast lpt

lemma execTreats_acts_of_not_executed (treatOk : ParasiteConfig → Bool)
    (a : ScreenAnalysis) (ast : AnalyzerState) (lpt now : ℚ)
    (h : (execTreats treatOk a ast lpt now).executed = false) :
    (execTreats treatOk a ast lpt now).acts = [] := by
  unfold execTreats at h ⊢
  by_cases hp : a.parasites_found = []
  · rw [if_pos hp]
  · rw [if_neg hp] at h ⊢
    exact treatParasites_acts_of_not_executed treatOk now a.parasites_found ast lpt h

/-- The watering branch either performs no watering or appends exactly one
watering action, with the amount chosen by the `or`-fallback and the
fertilizer flag computed from the belief and the treatment recency. -/
lemma executeBody_acts (fmt : ℚ → String) (hasWM : Bool) (cfgAmt : ℚ)
    (a : ScreenAnalysis) (t : TreatResult) (est : ExecState) (now : ℚ) :
    (executeBody fmt hasWM cfgAmt a t est now).acts = t.acts ∨
    (executeBody fmt hasWM cfgAmt a t est now).acts =
      t.acts ++ [ExecAction.water
        (waterAmountChoice cfgAmt a.water_amount_needed)
        (useFertilizer a.needs_fertilizer now t.lpt)] := by
  unfold executeBody
  split_ifs <;> simp

/-- C1.  Fertilizer suppression: for every watering the executor performs,
fertilizer is used only if the belief's fertilizer-needed flag is set AND
no pest treatment occurred within the last 10 seconds (neither earlier —
`now - last_parasite_treatment ≥ 10` — nor in this very cycle); and in the
spec's scenario, a watering request with fertilizer-needed=true arriving
5 seconds after a pest treatment executes WITHOUT fertilizer, while an
identical request 15 seconds after the treatment executes WITH
fertilizer. -/
theorem fertilizer_suppression :
    (∀ (fmt : ℚ → String) (treatOk : ParasiteConfig → Bool) (hasWM : Bool)
        (cfgAmt : ℚ) (a : ScreenAnalysis) (ast : AnalyzerState)
        (est : ExecState) (now : ℚ) (amt : ℚ) (fert : Bool),
      ExecAction.water amt fert ∈
          (execute fmt treatOk hasWM cfgAmt a ast est now).acts →
      fert = true →
      a.needs_fertilizer = true ∧
        10 ≤ now - est.last_parasite_treatment ∧
        ∀ nm, ExecAction.treatPest nm ∉
          (execute fmt treatOk hasWM cfgAmt a ast est now).acts) ∧
    (execute (fun _ => "2,5") (fun _ => true) false 5
        ⟨"", 4/5, [], true, some (5/2), true, none, [], 3/5⟩ ⟨[], 3⟩
        ⟨some (100, 200), 0, 0, 0, 0, 0⟩ 5).acts
      = [ExecAction.water (5/2) false] ∧
    (execute (fun _ => "2,5") (fun _ => true) false 5
        ⟨"", 4/5, [], true, some (5/2), true, none, [], 3/5⟩ ⟨[], 3⟩
        ⟨some (100, 200), 0, 0, 0, 0, 0⟩ 15).acts
      = [ExecAction.water (5/2) true] := by
  refine ⟨?_, (by
    norm_num [execute, executeBody, execTreats, waterPlantSmart, setAmountEvents,
      canPerformAction, lookupCd, effectiveCooldown, waterAmountChoice,
      useFertilizer, qTruthy]), (by
    norm_num [execute, executeBody, execTreats, waterPlantSmart, setAmountEvents,
      canPerformAction, lookupCd, effectiveCooldown, waterAmountChoice,
      useFertilizer, qTruthy])⟩
  intro fmt treatOk hasWM cfgAmt a ast est now amt fert hw hf
  subst hf
  unfold execute at hw ⊢
  by_cases hconf : a.confidence < 3/10
  · rw [if_pos hconf] at hw
    simp at hw
  · rw [if_neg hconf] at hw ⊢
    rcases executeBody_acts fmt hasWM cfgAmt a
        (execTreats treatOk a ast est.last_parasite_treatment now) est now with
      hacts | hacts
    · rw [hacts] at hw
      have := execTreats_all_treats treatOk a ast est.last_parasite_treatment now _ hw
      simp [ExecAction.isTreat] at this
    · rw [hacts] at hw
      rcases List.mem_append.mp hw with h | h
      · have := execTreats_all_treats treatOk a ast est.last_parasite_treatment now _ h
        simp [ExecAction.isTreat] at this
      · have heq := List.mem_singleton.mp h
        have hfert : useFertilizer a.needs_fertilizer now
            (execTreats treatOk a ast est.last_parasite_treatment now).lpt = true := by
          have := congrArg (fun x => match x with
            | ExecAction.water _ f => f
            | ExecAction.treatPest _ => false) heq
          simpa using this.symm
        unfold useFertilizer at hfert
        rw [Bool.and_eq_true] at hfert
        obtain ⟨hneeds, hnot⟩ := hfert
        rw [Bool.not_eq_true'] at hnot
        have hge : ¬(now - (execTreats treatOk a ast est.last_parasite_treatment now).lpt < 10) :=
          of_decide_eq_false hnot
        have hlpt := execTreats_lpt treatOk a ast est.last_parasite_treatment now
        by_cases hex : (execTreats treatOk a ast est.last_parasite_treatment now).executed = true
        · rw [if_pos hex] at hlpt
          rw [hlpt] at hge
          exact absurd (by linarith : now - now < 10) hge
        · rw [if_neg hex] at hlpt
          have hnil : (execTreats treatOk a ast est.last_parasite_treatment now).acts = [] :=
            execTreats_acts_of_not_executed treatOk a ast est.last_parasite_treatment now
              (Bool.not_eq_true _ ▸ hex)
          refine ⟨hneeds, ?_, ?_⟩
          · rw [hlpt] at hge
            linarith [not_lt.mp hge]
          · intro nm hmem
            rw [hacts, hnil] at hmem
            simp at hmem

/-- Witness for C1: the suppression clause applied at the 15-second
scenario, where the watering is performed with fertilizer. -/
theorem fertilizer_suppression_witness :
    (⟨"", 4/5, [], true, some (5/2), true, none, [], 3/5⟩ : ScreenAnalysis).needs_fertilizer = true ∧
    (10:ℚ) ≤ 15 - (⟨some (100, 200), 0, 0, 0, 0, 0⟩ : ExecState).last_parasite_treatment ∧
    ∀ nm, ExecAction.treatPest nm ∉
      (execute (fun _ => "2,5") (fun _ => true) false 5
        ⟨"", 4/5, [], true, some (5/2), true, none, [], 3/5⟩ ⟨[], 3⟩
        ⟨some (100, 200), 0, 0, 0, 0, 0⟩ 15).acts := by
  exact fertilizer_suppression.1 (fun _ => "2,5") (fun _ => true) false 5
    ⟨"", 4/5, [], true, some (5/2), true, none, [], 3/5⟩ ⟨[], 3⟩
    ⟨some (100, 200), 0, 0, 0, 0, 0⟩ 15 (5/2) true
    (by
      norm_num [execute, executeBody, execTreats, waterPlantSmart, setAmountEvents,
        canPerformAction, lookupCd, effectiveCooldown, waterAmountChoice,
        useFertilizer, qTruthy])
    rfl

/-- C4 counterexample.  The claim says every belief with confidence at
least 0.3 has its actions evaluated; but the loop's gate is strictly
`confidence > 0.3`, so at a reachable belief scoring exactly 0.3 (OCR band
0.4 gives +0.1, water-shortage gives +0.2) the cycle performs no action,
even though the executor itself — whose own gate is `confidence < 0.3` —
would have performed the watering. -/
theorem confidence_boundary_not_evaluated :
    calculateConfidence ⟨"", 4/10, [], true, none, false, none, [], 3/10⟩ = 3/10 ∧
    (monitorCycleExec (fun _ => "5,0") (fun _ => true) false 5
        ⟨"", 4/10, [], true, none, false, none, [], 3/10⟩ ⟨[], 3⟩
        ⟨some (100, 200), 0, 0, 0, 0, 0⟩ 5).acts = [] ∧
    (execute (fun _ => "5,0") (fun _ => true) false 5
        ⟨"", 4/10, [], true, none, false, none, [], 3/10⟩ ⟨[], 3⟩
        ⟨some (100, 200), 0, 0, 0, 0, 0⟩ 5).acts
      = [ExecAction.water 5 false] := by
  refine ⟨?_, ?_, ?_⟩
  · norm_num [calculateConfidence, confidenceScore, qTruthy]
  · norm_num [monitorCycleExec]
  · norm_num [execute, executeBody, execTreats, waterPlantSmart, setAmountEvents,
      canPerformAction, lookupCd, effectiveCooldown, waterAmountChoice,
      useFertilizer, qTruthy]

/-- C4 as amended.  In every cycle of the decision loop: a belief whose
confidence is at most 0.3 (not merely below it) causes no action — the
cycle leaves both states untouched and only bookkeeping counters advance;
a belief whose confidence strictly exceeds 0.3 has its actions evaluated by
the executor in strict priority order, all pest treatments before any
watering. -/
theorem confidence_threshold_gate (fmt : ℚ → String)
    (treatOk : ParasiteConfig → Bool) (hasWM : Bool) (cfgAmt : ℚ)
    (a : ScreenAnalysis) (ast : AnalyzerState) (est : ExecState) (now : ℚ) :
    (a.confidence ≤ 3/10 →
      monitorCycleExec fmt treatOk hasWM cfgAmt a ast est now =
        ⟨false, [], [], ast, est⟩) ∧
    (a.confidence > 3/10 →
      monitorCycleExec fmt treatOk hasWM cfgAmt a ast est now =
        execute fmt treatOk hasWM cfgAmt a ast est now) ∧
    (∃ ts ws, (execute fmt treatOk hasWM cfgAmt a ast est now).acts = ts ++ ws ∧
      (∀ x ∈ ts, x.isTreat = true) ∧ (∀ x ∈ ws, x.isTreat = false)) := by
  refine ⟨?_, ?_, ?_⟩
  · intro h
    unfold monitorCycleExec
    rw [if_neg (by linarith)]
  · intro h
    unfold monitorCycleExec
    rw [if_pos h]
  · unfold execute
    by_cases hconf : a.confidence < 3/10
    · rw [if_pos hconf]
      exact ⟨[], [], rfl, by intro x hx; simp at hx, by intro x hx; simp at hx⟩
    · rw [if_neg hconf]
      rcases executeBody_acts fmt hasWM cfgAmt a
          (execTreats treatOk a ast est.last_parasite_treatment now) est now with
        hacts | hacts
      · exact ⟨(execTreats treatOk a ast est.last_parasite_treatment now).acts, [],
          by rw [hacts, List.append_nil],
          execTreats_all_treats treatOk a ast est.last_parasite_treatment now,
          by intro x hx; simp at hx⟩
      · refine ⟨(execTreats treatOk a ast est.last_parasite_treatment now).acts,
          [ExecAction.water (waterAmountChoice cfgAmt a.water_amount_needed)
            (useFertilizer a.needs_fertilizer now
              (execTreats treatOk a ast est.last_parasite_treatment now).lpt)],
          hacts,
          execTreats_all_treats treatOk a ast est.last_parasite_treatment now,
          ?_⟩
        intro x hx
        rw [List.mem_singleton.mp hx]
        rfl

/-- Witness for C4's amended theorem: at the boundary belief of confidence
exactly 0.3 the cycle is a no-op. -/
theorem confidence_threshold_gate_witness :
    monitorCycleExec (fun _ => "5,0") (fun _ => true) false 5
        ⟨"", 4/10, [], true, none, false, none, [], 3/10⟩ ⟨[], 3⟩
        ⟨some (100, 200), 0, 0, 0, 0, 0⟩ 5 =
      ⟨false, [], [], ⟨[], 3⟩, ⟨some (100, 200), 0, 0, 0, 0, 0⟩⟩ := by
  exact (confidence_threshold_gate (fun _ => "5,0") (fun _ => true) false 5
    ⟨"", 4/10, [], true, none, false, none, [], 3/10⟩ ⟨[], 3⟩
    ⟨some (100, 200), 0, 0, 0, 0, 0⟩ 5).1 (by norm_num)

/-- With the watering point unset, the watering branch performs no
watering action. -/
lemma executeBody_acts_no_point (fmt : ℚ → String) (hasWM : Bool)
    (cfgAmt : ℚ) (a : ScreenAnalysis) (t : TreatResult) (est : ExecState)
    (now : ℚ) (h : est.watering_point = none) :
    (executeBody fmt hasWM cfgAmt a t est now).acts = t.acts := by
  unfold executeBody
  split_ifs with h1 h2 h3
  · rw [h] at h3
    simp [waterPlantSmart] at h3
  all_goals rfl

/-- C8 counterexample.  The claim says that with the watering point unset
the action fails without performing any input-actuation step; in the code
the point is checked only after the watering-mode keypress and the
amount-entry keystrokes, so those actuation events do occur before the
failure is reported. -/
theorem watering_point_unset_still_actuates :
    (waterPlantSmart (fun _ => "5,0") false none 5).2 = false ∧
    Event.pressKey "1" ∈ (waterPlantSmart (fun _ => "5,0") false none 5).1 ∧
    Event.backspace ∈ (waterPlantSmart (fun _ => "5,0") false none 5).1 := by
  refine ⟨rfl, ?_, ?_⟩ <;>
    simp [waterPlantSmart, setAmountEvents, List.mem_replicate]

/-- C8 as amended.  The watering action requires a previously configured
watering point: with the point unset it reports failure with no fallback —
no click is ever issued and the executor records no watering action, so the
loop merely counts a failed action and continues — but the failure is
detected only after the mode-activation keypress and the amount-entry
keystrokes have been performed. -/
theorem watering_point_required (fmt : ℚ → String) (hasWM : Bool)
    (amount : ℚ) :
    ((waterPlantSmart fmt hasWM none amount).2 = false) ∧
    (∀ p, Event.clickPoint p ∉ (waterPlantSmart fmt hasWM none amount).1) ∧
    (∀ (treatOk : ParasiteConfig → Bool) (cfgAmt : ℚ) (a : ScreenAnalysis)
        (ast : AnalyzerState) (est : ExecState) (now : ℚ),
      est.watering_point = none →
      ∀ (amt : ℚ) (fert : Bool), ExecAction.water amt fert ∉
        (execute fmt treatOk hasWM cfgAmt a ast est now).acts) := by
  refine ⟨rfl, ?_, ?_⟩
  · intro p hp
    cases hasWM <;>
      simp [waterPlantSmart, setAmountEvents, List.mem_replicate] at hp
  · intro treatOk cfgAmt a ast est now hwp amt fert hmem
    unfold execute at hmem
    by_cases hconf : a.confidence < 3/10
    · rw [if_pos hconf] at hmem
      simp at hmem
    · rw [if_neg hconf] at hmem
      rw [executeBody_acts_no_point fmt hasWM cfgAmt a _ est now hwp] at hmem
      have := execTreats_all_treats treatOk a ast est.last_parasite_treatment now _ hmem
      simp [ExecAction.isTreat] at this

/-- Witness for C8 at a concrete formatting function and amount. -/
theorem watering_point_required_witness :
    (waterPlantSmart (fun _ => "5,0") false none 5).2 = false ∧
    Event.clickPoint (100, 200) ∉ (waterPlantSmart (fun _ => "5,0") false none 5).1 := by
  exact ⟨(watering_point_required (fun _ => "5,0") false 5).1,
    (watering_point_required (fun _ => "5,0") false 5).2.1 (100, 200)⟩

/-- A stopped loop processes nothing. -/
lemma monitorLoop_stopped (tr : List Bool) (s : LoopState)
    (h : s.running = false) : monitorLoop tr s = s := by
  cases tr with
  | nil => rfl
  | cons r rest =>
    unfold monitorLoop
    rw [if_neg (by rw [h]; exact Bool.false_ne_true)]

/-- Characterization of a run of the monitor loop from a running state:
the emergency stop fires exactly when the consecutive-error counter
reaches 5, the loop stops exactly then, and otherwise every raising cycle
is counted. -/
lemma monitorLoop_spec (tr : List Bool) :
    ∀ s : LoopState, s.running = true →
      (monitorLoop tr s).emergencyStops =
        s.emergencyStops +
          (if reachesFiveFrom s.consecutiveErrors tr then 1 else 0) ∧
      (monitorLoop tr s).running = !(reachesFiveFrom s.consecutiveErrors tr) ∧
      (reachesFiveFrom s.consecutiveErrors tr = false →
        (monitorLoop tr s).errors = s.errors + tr.count true) := by
  induction tr with
  | nil =>
    intro s hs
    refine ⟨by simp [monitorLoop, reachesFiveFrom], ?_, ?_⟩
    · simp [monitorLoop, reachesFiveFrom, hs]
    · intro _
      simp [monitorLoop]
  | cons r rest ih =>
    intro s hs
    unfold monitorLoop
    rw [if_pos hs]
    cases r with
    | false =>
      have hstep : loopStep false s = ⟨s.running, s.scans + 1, s.errors, 0,
          s.emergencyStops⟩ := by
        simp [loopStep]
      rw [hstep]
      have hrun : (⟨s.running, s.scans + 1, s.errors, 0,
          s.emergencyStops⟩ : LoopState).running = true := hs
      obtain ⟨h1, h2, h3⟩ := ih _ hrun
      have hr : reachesFiveFrom s.consecutiveErrors (false :: rest) =
          reachesFiveFrom 0 rest := by
        simp [reachesFiveFrom]
      refine ⟨?_, ?_, ?_⟩
      · rw [hr]
        exact h1
      · rw [hr]
        exact h2
      · intro h0
        rw [hr] at h0
        rw [h3 h0]
        simp
    | true =>
      by_cases hc : 5 ≤ s.consecutiveErrors + 1
      · have hstep : loopStep true s = ⟨false, s.scans + 1, s.errors + 1,
            s.consecutiveErrors + 1, s.emergencyStops + 1⟩ := by
          simp [loopStep, hc]
        rw [hstep, monitorLoop_stopped _ _ rfl]
        have hr : reachesFiveFrom s.consecutiveErrors (true :: rest) = true := by
          simp [reachesFiveFrom, hc]
        rw [hr]
        refine ⟨by simp, by simp, ?_⟩
        intro h0
        cases h0
      · have hstep : loopStep true s = ⟨s.running, s.scans + 1, s.errors + 1,
            s.consecutiveErrors + 1, s.emergencyStops⟩ := by
          simp [loopStep, hc]
        rw [hstep]
        obtain ⟨h1, h2, h3⟩ := ih ⟨s.running, s.scans + 1, s.errors + 1,
            s.consecutiveErrors + 1, s.emergencyStops⟩ hs
        have hr : reachesFiveFrom s.consecutiveErrors (true :: rest) =
            reachesFiveFrom (s.consecutiveErrors + 1) rest := by
          simp [reachesFiveFrom, hc]
        refine ⟨?_, ?_, ?_⟩
        · rw [hr]
          exact h1
        · rw [hr]
          exact h2
        · intro h0
          rw [hr] at h0
          rw [h3 h0]
          simp [List.count_cons]
          omega

/-- A shorter run of `true`s is a prefix of a longer one. -/
lemma replicate_true_isPrefix (m n : ℕ) (h : m ≤ n) :
    List.replicate m true <+: List.replicate n true :=
  ⟨List.replicate (n - m) true, by
    rw [List.append_replicate_replicate]
    congr 1
    omega⟩

/-- The counter-based reachability test agrees with the claim-level
statement "five consecutive raising cycles occur": from `c` accumulated
errors, either the next `5 - c` cycles all raise, or a full contiguous run
of 5 raises occurs later in the schedule. -/
lemma reachesFiveFrom_iff (tr : List Bool) :
    ∀ c : ℕ, c ≤ 4 →
      (reachesFiveFrom c tr = true ↔
        (List.replicate (5 - c) true <+: tr ∨
          List.replicate 5 true <:+: tr)) := by
  induction tr with
  | nil =>
    intro c hc
    simp only [reachesFiveFrom, List.prefix_nil, List.infix_nil,
      List.replicate_eq_nil_iff]
    constructor
    · intro h
      cases h
    · rintro (h | h) <;> omega
  | cons r rest ih =>
    intro c hc
    have e1 : List.replicate (5 - c) true = true :: List.replicate (4 - c) true := by
      rw [show 5 - c = (4 - c) + 1 by omega, List.replicate_succ]
    cases r with
    | true =>
      by_cases hc5 : 5 ≤ c + 1
      · have hr : reachesFiveFrom c (true :: rest) = true := by
          simp [reachesFiveFrom, hc5]
        rw [hr]
        constructor
        · intro _
          left
          rw [e1]
          exact List.cons_prefix_cons.mpr ⟨rfl, by
            rw [show 4 - c = 0 by omega]
            exact List.nil_prefix⟩
        · intro _
          rfl
      · have hr : reachesFiveFrom c (true :: rest) =
            reachesFiveFrom (c + 1) rest := by
          simp [reachesFiveFrom, hc5]
        rw [hr, ih (c + 1) (by omega)]
        have e2 : 5 - (c + 1) = 4 - c := by omega
        rw [e2, e1]
        constructor
        · rintro (h | h)
          · left
            exact List.cons_prefix_cons.mpr ⟨rfl, h⟩
          · right
            exact List.infix_cons h
        · rintro (h | h)
          · left
            exact (List.cons_prefix_cons.mp h).2
          · rcases List.infix_cons_iff.mp h with h' | h'
            · left
              have h4 : List.replicate 4 true <+: rest := by
                rw [show (5:ℕ) = 4 + 1 from rfl, List.replicate_succ] at h'
                exact (List.cons_prefix_cons.mp h').2
              exact (replicate_true_isPrefix (4 - c) 4 (by omega)).trans h4
            · right
              exact h'
    | false =>
      have hr : reachesFiveFrom c (false :: rest) = reachesFiveFrom 0 rest := by
        simp [reachesFiveFrom]
      rw [hr, ih 0 (by omega)]
      simp only [Nat.sub_zero]
      constructor
      · rintro (h | h)
        · right
          exact List.infix_cons h.isInfix
        · right
          exact List.infix_cons h
      · rintro (h | h)
        · exfalso
          rw [e1] at h
          exact absurd (List.cons_prefix_cons.mp h).1 (by simp)
        · rcases List.infix_cons_iff.mp h with h' | h'
          · exfalso
            rw [show (5:ℕ) = 4 + 1 from rfl, List.replicate_succ] at h'
            exact absurd (List.cons_prefix_cons.mp h').1 (by simp)
          · right
            exact h'

/-- C7.  Failure escalation: every exception escaping a loop cycle is
caught and counted; starting from the running initial state, the
emergency-stop cleanup is invoked at most once over any schedule of cycle
outcomes, it is invoked exactly once precisely when 5 consecutive raising
cycles occur, and then the loop is in the stopped state; with no run of 5
consecutive failures the loop keeps running with every failure counted;
and a stopped loop processes nothing until externally restarted. -/
theorem failure_escalation :
    (∀ (s : LoopState) (tr : List Bool), s.running = false →
      monitorLoop tr s = s) ∧
    (∀ tr : List Bool,
      (monitorLoop tr initLoopState).emergencyStops ≤ 1 ∧
      ((monitorLoop tr initLoopState).emergencyStops = 1 ↔
        List.replicate 5 true <:+: tr) ∧
      ((monitorLoop tr initLoopState).emergencyStops = 1 →
        (monitorLoop tr initLoopState).running = false) ∧
      (¬ List.replicate 5 true <:+: tr →
        (monitorLoop tr initLoopState).running = true ∧
        (monitorLoop tr initLoopState).errors = List.count true tr)) := by
  refine ⟨fun s tr h => monitorLoop_stopped tr s h, ?_⟩
  intro tr
  obtain ⟨h1, h2, h3⟩ := monitorLoop_spec tr initLoopState rfl
  simp only [initLoopState] at h1 h2 h3 ⊢
  have hiff : reachesFiveFrom 0 tr = true ↔ List.replicate 5 true <:+: tr := by
    rw [reachesFiveFrom_iff tr 0 (by omega)]
    constructor
    · rintro (h | h)
      · exact h.isInfix
      · exact h
    · intro h
      exact Or.inr h
  cases hR : reachesFiveFrom 0 tr with
  | false =>
    simp only [hR] at h1 h2
    simp at h1 h2
    have hninf : ¬ List.replicate 5 true <:+: tr := by
      intro h
      rw [hiff.mpr h] at hR
      cases hR
    refine ⟨by omega, ?_, ?_, ?_⟩
    · rw [h1]
      constructor
      · intro h
        exact absurd h (by omega)
      · intro h
        exact absurd h hninf
    · intro h
      rw [h1] at h
      exact absurd h (by omega)
    · intro _
      exact ⟨h2, by simpa using h3 hR⟩
  | true =>
    simp only [hR] at h1 h2
    simp at h1 h2
    refine ⟨by omega, ?_, ?_, ?_⟩
    · rw [h1]
      constructor
      · intro _
        exact hiff.mp hR
      · intro _
        rfl
    · intro _
      exact h2
    · intro h
      exact absurd (hiff.mp hR) h

/-- Witness for C7: five consecutive raising cycles stop the loop with one
emergency-stop invocation; four do not. -/
theorem failure_escalation_witness :
    (monitorLoop [true, true, true, true, true] initLoopState).emergencyStops = 1 ∧
    (monitorLoop [true, true, true, true, true] initLoopState).running = false ∧
    (monitorLoop [true, true, true, true] initLoopState).running = true ∧
    (monitorLoop [true, true, true, true] initLoopState).errors = 4 := by
  have h5 := (failure_escalation.2 [true, true, true, true, true]).2.1.mpr
    (⟨[], [], by simp⟩)
  have hrun := (failure_escalation.2 [true, true, true, true, true]).2.2.1 h5
  have h4 := (failure_escalation.2 [true, true, true, true]).2.2.2
    (by
      intro h
      have := h.sublist.length_le
      simp at this)
  exact ⟨h5, hrun, h4.1, by simpa using h4.2⟩

/-- A successful dictionary lookup means the key is present. -/
lemma dictFind_some_mem {α : Type} (m : List (String × α)) (k : String)
    (v : α) (h : dictFind m k = some v) : k ∈ m.map Prod.fst := by
  unfold dictFind at h
  cases hf : m.find? (fun p => p.1 == k) with
  | none =>
    rw [hf] at h
    cases h
  | some p =>
    have hp := List.find?_some hf
    have hmem := List.mem_of_find?_eq_some hf
    have he : p.1 = k := by simpa using hp
    exact he ▸ List.mem_map_of_mem Prod.fst hmem

/-- The reader key (16 hex characters) can never equal a writer key
(an `np.array2string` rendering, which always opens with a bracket). -/
lemma md5Key_ne_arr2string (md5hex arr2string : List ℕ → String)
    (hmd5 : ∀ b : List ℕ, ∀ ch ∈ (md5Key md5hex b).toList, isHexChar ch = true)
    (harr : ∀ xs : List ℕ, ∃ rest, (arr2string xs).toList = '[' :: rest)
    (b xs : List ℕ) : md5Key md5hex b ≠ arr2string xs := by
  intro heq
  obtain ⟨rest, hr⟩ := harr xs
  have hmem : '[' ∈ (md5Key md5hex b).toList := by
    rw [heq, hr]
    exact List.mem_cons_self _ _
  have := hmd5 b '[' hmem
  exact absurd this (by decide)

/-- On an analyzer-written cache, `get_cached_ocr` always misses: it
returns `None` and only bumps the miss counter. -/
lemma getCachedOcr_eq_of_analyzerKeyed (md5hex arr2string : List ℕ → String)
    (hmd5 : ∀ b : List ℕ, ∀ ch ∈ (md5Key md5hex b).toList, isHexChar ch = true)
    (harr : ∀ xs : List ℕ, ∃ rest, (arr2string xs).toList = '[' :: rest)
    (c : OcrCache) (bytes : List ℕ) (now : ℚ)
    (hk : analyzerKeyed arr2string c) :
    getCachedOcr md5hex c bytes now =
      (none, if c.enabled then
        ⟨c.enabled, c.ttl, c.entries, c.stamps, c.hits, c.misses + 1⟩
      else c) := by
  unfold getCachedOcr
  by_cases he : c.enabled = true
  · rw [if_pos he, if_pos he]
    cases hf : dictFind c.entries (md5Key md5hex bytes) with
    | none => rfl
    | some v =>
      exfalso
      obtain ⟨xs, hxs⟩ := hk _ (dictFind_some_mem _ _ _ hf)
      exact md5Key_ne_arr2string md5hex arr2string hmd5 harr bytes xs hxs
  · rw [if_neg he, if_neg he]

/-- C10.  OCR cache write/read key mismatch: a recognition result stored by
the analyzer (written under the `np.array2string` key of the image corner)
is never returned by a later cache lookup (which reads under the first 16
hex characters of the MD5 of the image bytes), because the two key
derivations can never produce equal strings; consequently, on any cache
populated only through this path the lookup always misses and the text
returned by `_extract_text_enhanced` is exactly the OCR-attempt outcome,
independent of the prior writes, which also keep the cache
analyzer-keyed; and the cached branch, if it ever fired, would report the
cached text at the fixed confidence 0.85 with newline-split lines. -/
theorem ocr_cache_never_hits (md5hex arr2string : List ℕ → String)
    (hmd5 : ∀ b : List ℕ, ∀ ch ∈ (md5Key md5hex b).toList, isHexChar ch = true)
    (harr : ∀ xs : List ℕ, ∃ rest, (arr2string xs).toList = '[' :: rest) :
    (∀ b xs : List ℕ, md5Key md5hex b ≠ arr2string xs) ∧
    (∀ (c : OcrCache) (bytes : List ℕ) (now : ℚ),
      analyzerKeyed arr2string c →
      (getCachedOcr md5hex c bytes now).1 = none) ∧
    (∀ (c : OcrCache) (bytes corner : List ℕ) (now : ℚ)
        (ocrBest : String × ℚ × List String),
      analyzerKeyed arr2string c →
      (extractTextEnhanced md5hex arr2string c bytes corner now ocrBest).1 =
        ocrBest ∧
      analyzerKeyed arr2string
        (extractTextEnhanced md5hex arr2string c bytes corner now ocrBest).2) ∧
    (∀ (c : OcrCache) (bytes corner : List ℕ) (now : ℚ)
        (ocrBest : String × ℚ × List String) (t : String),
      (getCachedOcr md5hex c bytes now).1 = some t → t ≠ "" →
      (extractTextEnhanced md5hex arr2string c bytes corner now ocrBest).1 =
        (t, 17/20, t.splitOn "\n")) := by
  refine ⟨md5Key_ne_arr2string md5hex arr2string hmd5 harr, ?_, ?_, ?_⟩
  · intro c bytes now hk
    rw [getCachedOcr_eq_of_analyzerKeyed md5hex arr2string hmd5 harr c bytes now hk]
  · intro c bytes corner now ocrBest hk
    have hbody : extractTextEnhanced md5hex arr2string c bytes corner now ocrBest =
        ocrMissBranch arr2string corner now ocrBest
          (if c.enabled then
            ⟨c.enabled, c.ttl, c.entries, c.stamps, c.hits, c.misses + 1⟩
          else c) := by
      unfold extractTextEnhanced
      rw [getCachedOcr_eq_of_analyzerKeyed md5hex arr2string hmd5 harr c bytes now hk]
    rw [hbody]
    constructor
    · unfold ocrMissBranch
      split_ifs <;> rfl
    · by_cases hen : c.enabled = true
      · rw [if_pos hen]
        unfold ocrMissBranch cacheOcrResult
        split_ifs with hne
        · intro k hkm
          simp only [dictSet, List.map_cons, List.mem_cons] at hkm
          rcases hkm with h | h
          · exact ⟨corner, h⟩
          · exact hk _ h
        · intro k hkm
          exact hk _ hkm
      · rw [if_neg hen]
        unfold ocrMissBranch cacheOcrResult
        split_ifs with hne
        · intro k hkm
          exact hk _ hkm
        · intro k hkm
          exact hk _ hkm
  · intro c bytes corner now ocrBest t hg hne
    unfold extractTextEnhanced
    cases hr : getCachedOcr md5hex c bytes now with
    | mk fst snd =>
      rw [hr] at hg
      dsimp only at hg
      subst hg
      dsimp only
      rw [if_pos hne]

/-- Witness for C10: a concrete hex digest function and bracketed
rendering; the lookup on a cache holding one analyzer-written entry
misses. -/
theorem ocr_cache_never_hits_witness :
    (getCachedOcr (fun _ => "0123456789abcdef")
      ⟨true, 3, [("[0 1]", "txt")], [("[0 1]", 0)], 0, 0⟩ [0, 1] 1).1 = none := by
  exact (ocr_cache_never_hits (fun _ => "0123456789abcdef") (fun _ => "[0 1]")
    (by
      intro b
      show ∀ ch ∈ (("0123456789abcdef" : String).take 16).toList,
        isHexChar ch = true
      decide)
    (by
      intro xs
      refine ⟨"0 1]".toList, ?_⟩
      show ("[0 1]" : String).toList = '[' :: "0 1]".toList
      decide)).2.1
    ⟨true, 3, [("[0 1]", "txt")], [("[0 1]", 0)], 0, 0⟩ [0, 1] 1
    (by
      intro k hk
      simp at hk
      exact ⟨[], by rw [hk]⟩)
